import Mathlib

/-!
Verification of the repository façade in
`libs/server/core/domain-services/src/lib/repository/typeorm-base-repository.ts`.

The façade (`IBaseRepository`) is embedded as pure functions over an explicit
store state; every operation additionally emits a trace of the calls it makes
to its collaborators (store reads, store writes, invalidation triggers), in
the order the TypeScript code issues them (each call is `await`ed, so the
operations are straight-line sequential).

External collaborators are modelled explicitly:
* the TypeORM `Repository` (the backing store) as an association list from id
  to row, with TypeORM's documented `save` merge semantics;
* the pagination capability (`nestjs-typeorm-paginate`) as a page slice with
  counts;
* `createTypeormRelationsArray` (`./relations.transform`, not part of the
  provided sources) and `parseQuery` (`@involvemint/shared/domain`, not part
  of the provided sources) are modelled from the spec;
* `GatewaysStorage.trigger` is opaque: the façade-level claims only concern
  when and with which ids it is invoked, so it is recorded as a trace event.

Ids are modelled as `String` (the TS `IdType` is `string | number`,
consistent per entity type; nothing in the verified claims depends on the
choice).
-/

/-- A field value of a loaded entity row: a scalar column, a to-one loaded
relation, or a to-many loaded relation. -/
inductive FieldVal where
  | scalar (v : String) : FieldVal
  | one (row : List (String × FieldVal)) : FieldVal
  | many (rows : List (List (String × FieldVal))) : FieldVal

/-- A loaded entity row: field name to value. -/
abbrev Row := List (String × FieldVal)

/-- The backing store: id to row. Owned by the external TypeORM repository;
the façade only touches it through the store primitives below. -/
abbrev Store := List (String × Row)

/-- Pagination options carried by the reserved pagination key of a query
specification: a page number and a page size. -/
structure PaginateOptions where
  page : Nat
  limit : Nat
deriving DecidableEq

mutual
/-- Modelled from the spec: a QuerySpec is a mapping from field name to
either `true` (a scalar field) or a nested QuerySpec (a relation), and may
carry the reserved pagination options at its top level. -/
inductive QSpec where
  | node (fields : QFields) (pagin : Option PaginateOptions) : QSpec

/-- The field entries of a QuerySpec; `none` stands for the literal `true`
(scalar selection), `some q` for a nested spec (relation selection). -/
inductive QFields where
  | nil : QFields
  | cons (key : String) (sub : Option QSpec) (rest : QFields) : QFields
end

/-- The field entries of a QuerySpec. -/
def QSpec.fields : QSpec → QFields
  | .node fs _ => fs

/-- The pagination options of a QuerySpec (the reserved key), when present. -/
def QSpec.pagin : QSpec → Option PaginateOptions
  | .node _ p => p

mutual
/-- Modelled from the spec (`./relations.transform` is not among the provided
sources): for every key whose value is a nested QuerySpec emit the key, and
recursively emit the key dot-prefixed onto each of the nested spec's paths;
scalar (`true`) keys and the reserved pagination key contribute nothing. -/
def createTypeormRelationsArray : QSpec → List String
  | .node fs _ => relationsOfFields fs

/-- Relation paths contributed by a QuerySpec's field entries. -/
def relationsOfFields : QFields → List String
  | .nil => []
  | .cons _ none rest => relationsOfFields rest
  | .cons k (some sub) rest =>
      k :: ((createTypeormRelationsArray sub).map (fun p => k ++ "." ++ p)
        ++ relationsOfFields rest)
end

mutual
/-- Modelled from the spec (`parseQuery` of `@involvemint/shared/domain` is
not among the provided sources): project a loaded row to exactly the shape
named by the spec — copy each scalar key selected with `true`, recursively
project each relation key, omit everything else. -/
def parseQueryRow (q : QSpec) (r : Row) : Row :=
  match q with
  | .node fs _ => parseQueryFields fs r

/-- Projection of a row through the field entries of a QuerySpec. -/
def parseQueryFields (fs : QFields) (r : Row) : Row :=
  match fs with
  | .nil => []
  | .cons k none rest =>
      (match r.lookup k with
        | some (.scalar v) => [(k, FieldVal.scalar v)]
        | _ => []) ++ parseQueryFields rest r
  | .cons k (some sub) rest =>
      (match r.lookup k with
        | some (.one row) => [(k, FieldVal.one (parseQueryRow sub row))]
        | some (.many rows) => [(k, FieldVal.many (rows.map (parseQueryRow sub)))]
        | _ => []) ++ parseQueryFields rest r
end

/-- A record handed to the store's `save`: the entity id together with the
fields being written (TS `IUpdateEntity` / `IUpsertEntity`). -/
structure SaveRec where
  id : String
  fields : Row

/-- Set a field of a row: replace its first occurrence, or append it. -/
def setField : Row → String → FieldVal → Row
  | [], k, v => [(k, v)]
  | kv :: rest, k, v =>
      if kv.1 == k then (k, v) :: rest else kv :: setField rest k v

/-- Merge an update into an existing row: every field named by the update is
overwritten, every other field of the old row is retained. -/
def mergeRow (old upd : Row) : Row :=
  upd.foldl (fun acc kv => setField acc kv.1 kv.2) old

/-- The row a save record writes: its fields, with the id column set to the
record's id. -/
def rowOfRec (e : SaveRec) : Row :=
  setField e.fields "id" (.scalar e.id)

/-- Store collaborator, modelled per TypeORM's documented `save` semantics
(upsert by id): if a row with the record's id exists, merge the record's
fields into it (unnamed fields retain their prior values), else insert. -/
def storeSave : Store → SaveRec → Store
  | [], e => [(e.id, rowOfRec e)]
  | (k, old) :: rest, e =>
      if k == e.id then (k, mergeRow old (rowOfRec e)) :: rest
      else (k, old) :: storeSave rest e

/-- Store collaborator: batch save, one merge per record in input order. -/
def storeSaveMany (s : Store) (es : List SaveRec) : Store :=
  es.foldl storeSave s

/-- Store collaborator: delete every row whose id is among `ids`. -/
def storeDelete (s : Store) (ids : List String) : Store :=
  s.filter (fun kv => !(ids.contains kv.1))

/-- Store collaborator: fetch one row by id, absent as `none`
(TypeORM `findOne`). -/
def storeFindOne (s : Store) (id : String) : Option Row :=
  s.lookup id

/-- The single error kind the façade can surface: the store found no row for
a single-entity fetch (TypeORM `EntityNotFoundError`). -/
inductive RepoError where
  | notFound : RepoError
deriving DecidableEq

/-- Store collaborator: fetch one row by id, failing with `notFound` exactly
when no row matches (TypeORM `findOneOrFail`). -/
def storeFindOneOrFail (s : Store) (id : String) : Except RepoError Row :=
  match s.lookup id with
  | some r => .ok r
  | none => .error .notFound

/-- Store collaborator: batch fetch by ids; missing ids are silently absent
from the result (TypeORM `findByIds`). -/
def storeFindByIds (s : Store) (ids : List String) : List Row :=
  ids.filterMap (fun id => s.lookup id)

/-- Store collaborator: fetch all rows (TypeORM `find`). -/
def storeFind (s : Store) : List Row :=
  s.map Prod.snd

/-- One fetched page with counts, as produced by the store's pagination
capability (`nestjs-typeorm-paginate`'s `Pagination`). -/
structure Pagination where
  items : List Row
  totalItems : Nat
  page : Nat
  limit : Nat

/-- Pagination capability of the store, modelled as a page slice with
counts. -/
def storePaginate (s : Store) (page limit : Nat) : Pagination :=
  let all := storeFind s
  { items := (all.drop ((page - 1) * limit)).take limit
    totalItems := all.length
    page := page
    limit := limit }

/-- Store options other than relations (TS `FindManyOptions` minus
`relations`): opaque data the façade passes through to the store. -/
abbrev Opts := List (String × String)

/-- One call the façade makes to a collaborator, in program order. -/
inductive Event where
  | readOne (id : String) (relations : List String) : Event
  | readMany (ids : List String) (relations : List String) : Event
  | readAll (options : Opts) (relations : List String) : Event
  | readPage (page limit : Nat) (options : Opts) (relations : List String) : Event
  | write (recs : List SaveRec) : Event
  | remove (ids : List String) : Event
  | trigger (ids : List String) : Event

/-- `true` for store writes (`save` / `delete`). -/
def Event.isStoreWrite : Event → Bool
  | .write _ => true
  | .remove _ => true
  | _ => false

/-- `true` for store reads. -/
def Event.isStoreRead : Event → Bool
  | .readOne _ _ => true
  | .readMany _ _ => true
  | .readAll _ _ => true
  | .readPage _ _ _ _ => true
  | _ => false

/-- `true` for invalidation-trigger invocations. -/
def Event.isTrigger : Event → Bool
  | .trigger _ => true
  | _ => false

/-- Result of one façade operation: its return value, the store state it
leaves behind, and the trace of collaborator calls it made, in order. -/
structure OpResult (α : Type) where
  ret : α
  store : Store
  events : List Event

/-- The result a `query` call returns: a full projected list, or one
projected page with counts. -/
inductive QueryResult where
  | list (rows : List Row) : QueryResult
  | page (p : Pagination) : QueryResult

namespace IBaseRepository

/-- `findOneOrFail(id[, query])`: with a query, read with the relations
extracted from it and project the row; without, read plainly. The store's
`notFound` failure propagates to the caller. -/
def findOneOrFail (s : Store) (id : String) (q : Option QSpec) :
    OpResult (Except RepoError Row) :=
  match q with
  | some spec =>
      { ret := (storeFindOneOrFail s id).map (parseQueryRow spec)
        store := s
        events := [.readOne id (createTypeormRelationsArray spec)] }
  | none =>
      { ret := storeFindOneOrFail s id
        store := s
        events := [.readOne id []] }

/-- `findOne(id[, query])`: like `findOneOrFail` but an absent row is
returned as `none`, never a failure. -/
def findOne (s : Store) (id : String) (q : Option QSpec) :
    OpResult (Option Row) :=
  match q with
  | some spec =>
      { ret := (storeFindOne s id).map (parseQueryRow spec)
        store := s
        events := [.readOne id (createTypeormRelationsArray spec)] }
  | none =>
      { ret := storeFindOne s id
        store := s
        events := [.readOne id []] }

/-- `findMany(ids[, query])`: empty id list short-circuits to `[]` with no
store access; else batch read (with the extracted relations when a query is
given) and project. -/
def findMany (s : Store) (ids : List String) (q : Option QSpec) :
    OpResult (List Row) :=
  if ids.isEmpty then { ret := [], store := s, events := [] }
  else
    match q with
    | some spec =>
        { ret := (storeFindByIds s ids).map (parseQueryRow spec)
          store := s
          events := [.readMany ids (createTypeormRelationsArray spec)] }
    | none =>
        { ret := storeFindByIds s ids
          store := s
          events := [.readMany ids []] }

/-- `findAll([query])`: fetch all rows, projecting when a query is given. -/
def findAll (s : Store) (q : Option QSpec) : OpResult (List Row) :=
  match q with
  | some spec =>
      { ret := (storeFind s).map (parseQueryRow spec)
        store := s
        events := [.readAll [] (createTypeormRelationsArray spec)] }
  | none =>
      { ret := storeFind s
        store := s
        events := [.readAll [] []] }

/-- `provisionQuery(query, options)`: when the reserved pagination key is
present fetch one page with counts via the store's paginate capability, else
fetch the full set; both with the extracted relations and the caller's
options. -/
def provisionQuery (s : Store) (q : QSpec) (options : Opts) :
    OpResult QueryResult :=
  let relations := createTypeormRelationsArray q
  match q.pagin with
  | some po =>
      { ret := .page (storePaginate s po.page po.limit)
        store := s
        events := [.readPage po.page po.limit options relations] }
  | none =>
      { ret := .list (storeFind s)
        store := s
        events := [.readAll options relations] }

/-- Projection of a `query` result: project each item, keep pagination
metadata structurally. -/
def parseQueryResult (q : QSpec) : QueryResult → QueryResult
  | .list rows => .list (rows.map (parseQueryRow q))
  | .page p => .page { p with items := p.items.map (parseQueryRow q) }

/-- `query(query[, options])`: fetch via `provisionQuery`, then project. -/
def query (s : Store) (q : QSpec) (options : Opts) : OpResult QueryResult :=
  let pr := provisionQuery s q options
  { ret := parseQueryResult q pr.ret
    store := pr.store
    events := pr.events }

/-- `update(id, entity[, query])`: save the entity's fields with its id field
overwritten by the id argument, invoke the invalidation trigger with that
single id, then return the re-read via `findOneOrFail` (projected when a
query is given). -/
def update (s : Store) (id : String) (entity : SaveRec) (q : Option QSpec) :
    OpResult (Except RepoError Row) :=
  let saved : SaveRec := { entity with id := id }
  let s1 := storeSave s saved
  let read := findOneOrFail s1 id q
  { ret := read.ret
    store := read.store
    events := [.write [saved], .trigger [id]] ++ read.events }

/-- `upsert(entity[, query])`: save the entity, trigger its id, then return
the re-read via `findOneOrFail`. -/
def upsert (s : Store) (entity : SaveRec) (q : Option QSpec) :
    OpResult (Except RepoError Row) :=
  let s1 := storeSave s entity
  let read := findOneOrFail s1 entity.id q
  { ret := read.ret
    store := read.store
    events := [.write [entity], .trigger [entity.id]] ++ read.events }

/-- `upsertMany(entities[, query])`: empty input short-circuits to `[]` with
no store access; else batch save, trigger once with the full id set, then
return the re-read of exactly those ids via `findMany`. -/
def upsertMany (s : Store) (entities : List SaveRec) (q : Option QSpec) :
    OpResult (List Row) :=
  if entities.isEmpty then { ret := [], store := s, events := [] }
  else
    let s1 := storeSaveMany s entities
    let ids := entities.map SaveRec.id
    let read := findMany s1 ids q
    { ret := read.ret
      store := read.store
      events := [.write entities, .trigger ids] ++ read.events }

/-- `delete(id)`: delete the row, trigger the id, return the id. -/
def delete (s : Store) (id : String) : OpResult String :=
  { ret := id
    store := storeDelete s [id]
    events := [.remove [id], .trigger [id]] }

/-- `deleteMany(ids)`: empty input short-circuits to `[]` with no store
access; else batch delete, trigger the full id set, return the ids. -/
def deleteMany (s : Store) (ids : List String) : OpResult (List String) :=
  if ids.isEmpty then { ret := [], store := s, events := [] }
  else
    { ret := ids
      store := storeDelete s ids
      events := [.remove ids, .trigger ids] }

end IBaseRepository

/-! ### Association-list lemmas for the store's merge (upsert-by-id) semantics -/

/-- Unfolding lemma for `List.lookup` on a cons cell. -/
theorem lookupPair_cons {α β : Type} [BEq α] (a : α) (kv : α × β)
    (l : List (α × β)) :
    ((kv :: l).lookup a) = if a == kv.1 then some kv.2 else l.lookup a := by
  obtain ⟨k, v⟩ := kv
  by_cases h : (a == k) = true
  · simp [List.lookup, h]
  · simp [List.lookup, h]

/-- After setting field `k`, looking up `k` finds the new value. -/
theorem lookup_setField_self (r : Row) (k : String) (v : FieldVal) :
    (setField r k v).lookup k = some v := by
  induction r with
  | nil => simp [setField, lookupPair_cons]
  | cons kv rest ih =>
    by_cases h : kv.1 = k
    · simp [setField, h, lookupPair_cons]
    · have h1 : (kv.1 == k) = false := beq_eq_false_iff_ne.mpr h
      have h2 : (k == kv.1) = false := beq_eq_false_iff_ne.mpr (Ne.symm h)
      simp [setField, h1, lookupPair_cons, h2, ih]

/-- Setting field `k` leaves the lookup of every other key unchanged. -/
theorem lookup_setField_ne (r : Row) (k k' : String) (v : FieldVal)
    (h : k' ≠ k) : (setField r k v).lookup k' = r.lookup k' := by
  induction r with
  | nil => simp [setField, lookupPair_cons, beq_eq_false_iff_ne.mpr h]
  | cons kv rest ih =>
    by_cases hk : kv.1 = k
    · simp [setField, hk, lookupPair_cons, beq_eq_false_iff_ne.mpr h]
    · simp only [setField, beq_eq_false_iff_ne.mpr hk, Bool.false_eq_true,
        if_false, lookupPair_cons, ih]

/-- Merging an update whose keys avoid `k` leaves the lookup of `k`
unchanged. -/
theorem lookup_mergeRow_notMem (upd old : Row) (k : String)
    (h : k ∉ upd.map Prod.fst) :
    (mergeRow old upd).lookup k = old.lookup k := by
  induction upd generalizing old with
  | nil => rfl
  | cons kv rest ih =>
    simp only [List.map_cons, List.mem_cons, not_or] at h
    have step : mergeRow old (kv :: rest) = mergeRow (setField old kv.1 kv.2) rest := rfl
    rw [step, ih _ h.2, lookup_setField_ne _ _ _ _ h.1]

/-- Merging an update with distinct keys writes each named field: looking up
a field the update names yields the update's value. -/
theorem lookup_mergeRow_mem (upd old : Row) (k : String) (v : FieldVal)
    (hnd : (upd.map Prod.fst).Nodup) (h : upd.lookup k = some v) :
    (mergeRow old upd).lookup k = some v := by
  induction upd generalizing old with
  | nil => simp [List.lookup] at h
  | cons kv rest ih =>
    have step : mergeRow old (kv :: rest) = mergeRow (setField old kv.1 kv.2) rest := rfl
    simp only [List.map_cons, List.nodup_cons] at hnd
    rw [lookupPair_cons] at h
    by_cases hk : k = kv.1
    · rw [if_pos (by simp [beq_iff_eq, hk])] at h
      have hnm : k ∉ rest.map Prod.fst := by rw [hk]; exact hnd.1
      rw [step, lookup_mergeRow_notMem _ _ _ hnm, hk, lookup_setField_self]
      exact h
    · rw [if_neg (by simp [beq_iff_eq]; exact hk)] at h
      rw [step]
      exact ih _ hnd.2 h

/-- `storeSave` writes exactly the row identified by the record's id: merged
into the old row when one exists, inserted fresh otherwise. -/
theorem lookup_storeSave_self (s : Store) (e : SaveRec) :
    (storeSave s e).lookup e.id =
      some (match s.lookup e.id with
        | some old => mergeRow old (rowOfRec e)
        | none => rowOfRec e) := by
  induction s with
  | nil => simp [storeSave, List.lookup, lookupPair_cons]
  | cons kv rest ih =>
    by_cases h : kv.1 = e.id
    · simp [storeSave, h, lookupPair_cons]
    · have h1 : (kv.1 == e.id) = false := beq_eq_false_iff_ne.mpr h
      have h2 : (e.id == kv.1) = false := beq_eq_false_iff_ne.mpr (Ne.symm h)
      simp [storeSave, h1, lookupPair_cons, h2, ih]

/-- `storeDelete` removes every row whose id is among the deleted ids. -/
theorem lookup_storeDelete_mem (s : Store) (ids : List String) (k : String)
    (h : ids.contains k = true) : (storeDelete s ids).lookup k = none := by
  induction s with
  | nil => rfl
  | cons kv rest ih =>
    by_cases hk : ids.contains kv.1 = true
    · have hb : (!(ids.contains kv.1)) = false := by rw [hk]; rfl
      simp only [storeDelete, List.filter_cons, hb, Bool.false_eq_true, if_false]
      simpa [storeDelete] using ih
    · have hne : (k == kv.1) = false := by
        refine beq_eq_false_iff_ne.mpr fun he => ?_
        exact hk (he ▸ h)
      simp only [storeDelete, List.filter_cons, hk, Bool.not_false, if_true]
      rw [lookupPair_cons, if_neg (by simp [hne])]
      simpa [storeDelete] using ih

/-! ### Concrete values used by the witnesses -/

/-- A demo row for witnesses. -/
def demoRow : Row :=
  [("id", .scalar "a"), ("name", .scalar "Ada"), ("secret", .scalar "s")]

/-- A demo store holding two rows. -/
def demoStore : Store :=
  [("a", demoRow), ("b", [("id", .scalar "b"), ("name", .scalar "Bo")])]

/-- A demo save record carrying an id different from the one it will be
updated under. -/
def demoPatch : SaveRec :=
  { id := "zzz", fields := [("name", .scalar "Ada2")] }

/-- A demo QuerySpec selecting two scalar fields, no pagination. -/
def demoSpec : QSpec :=
  .node (.cons "id" none (.cons "name" none .nil)) none

/-- A demo QuerySpec carrying the reserved pagination options. -/
def demoPagSpec : QSpec :=
  .node (.cons "id" none .nil) (some { page := 2, limit := 1 })

/-! ### Claim theorems -/

/-- C4: `findMany`, `upsertMany` and `deleteMany` on an empty input list
return an empty list, leave the store untouched, and make no collaborator
call at all (no store read, no store write, no trigger), whether or not a
QuerySpec is supplied. -/
theorem emptyInput_shortCircuits (s : Store) (q : Option QSpec) :
    IBaseRepository.findMany s [] q = { ret := [], store := s, events := [] } ∧
    IBaseRepository.upsertMany s [] q = { ret := [], store := s, events := [] } ∧
    IBaseRepository.deleteMany s [] = { ret := [], store := s, events := [] } :=
  ⟨rfl, rfl, rfl⟩

/-- C6: `delete(id)` issues the store delete of that row, fires the trigger
with exactly that id, returns exactly the input id, and afterwards the row is
gone from the store; `deleteMany` on a non-empty id list batch-deletes those
rows, fires the trigger with the full id set, and returns exactly the input
list. -/
theorem delete_and_deleteMany_spec (s : Store) (id i : String)
    (is : List String) :
    IBaseRepository.delete s id =
      { ret := id, store := storeDelete s [id]
        events := [.remove [id], .trigger [id]] } ∧
    (IBaseRepository.delete s id).store.lookup id = none ∧
    IBaseRepository.deleteMany s (i :: is) =
      { ret := i :: is, store := storeDelete s (i :: is)
        events := [.remove (i :: is), .trigger (i :: is)] } ∧
    (IBaseRepository.deleteMany s (i :: is)).store.lookup i = none := by
  refine ⟨rfl, ?_, rfl, ?_⟩
  · exact lookup_storeDelete_mem s [id] id (by simp)
  · exact lookup_storeDelete_mem s (i :: is) i (by simp)

/-- C9: the record `update(id, entity)` hands to the store's save is the
input entity with its id field overwritten by the id argument — the written
row's id column is the id argument, whatever id the entity itself carried —
and the store is saved under exactly that record. -/
theorem update_overridesId (s : Store) (id : String) (entity : SaveRec)
    (q : Option QSpec) :
    ({ entity with id := id } : SaveRec) = { id := id, fields := entity.fields } ∧
    (IBaseRepository.update s id entity q).events.head? =
      some (.write [{ entity with id := id }]) ∧
    (rowOfRec { entity with id := id }).lookup "id" = some (.scalar id) ∧
    (IBaseRepository.update s id entity q).store =
      storeSave s { entity with id := id } := by
  refine ⟨rfl, rfl, lookup_setField_self _ _ _, ?_⟩
  cases q <;> rfl

/-- C10: no read operation of the façade (`findOne`, `findOneOrFail`,
`findMany`, `findAll`, `query`) ever invokes the invalidation trigger: their
traces contain no trigger event. -/
theorem reads_never_trigger (s : Store) (id : String) (ids : List String)
    (q : Option QSpec) (qq : QSpec) (options : Opts) :
    ((IBaseRepository.findOne s id q).events.all fun e => !e.isTrigger) = true ∧
    ((IBaseRepository.findOneOrFail s id q).events.all fun e => !e.isTrigger) = true ∧
    ((IBaseRepository.findMany s ids q).events.all fun e => !e.isTrigger) = true ∧
    ((IBaseRepository.findAll s q).events.all fun e => !e.isTrigger) = true ∧
    ((IBaseRepository.query s qq options).events.all fun e => !e.isTrigger) = true := by
  refine ⟨?_, ?_, ?_, ?_, ?_⟩
  · cases q <;> rfl
  · cases q <;> rfl
  · cases ids <;> cases q <;> rfl
  · cases q <;> rfl
  · obtain ⟨fs, p⟩ := qq
    cases p <;> rfl

/-- C7: `findOneOrFail(id[, spec])` issues one store read of that id carrying
the relation set extracted from the spec (none without a spec); on a match it
returns the row, projected through the spec when one is given; and it returns
the `notFound` error — surfaced, not defaulted — exactly when no row matches
the id. -/
theorem findOneOrFail_spec (s : Store) (id : String) (spec : QSpec) :
    (IBaseRepository.findOneOrFail s id (some spec)).events =
      [.readOne id (createTypeormRelationsArray spec)] ∧
    (IBaseRepository.findOneOrFail s id none).events = [.readOne id []] ∧
    (∀ r, s.lookup id = some r →
      (IBaseRepository.findOneOrFail s id (some spec)).ret =
        .ok (parseQueryRow spec r)) ∧
    (∀ r, s.lookup id = some r →
      (IBaseRepository.findOneOrFail s id none).ret = .ok r) ∧
    (∀ q : Option QSpec,
      ((IBaseRepository.findOneOrFail s id q).ret = .error .notFound ↔
        s.lookup id = none)) := by
  refine ⟨rfl, rfl, ?_, ?_, ?_⟩
  · intro r hr
    simp [IBaseRepository.findOneOrFail, storeFindOneOrFail, hr, Except.map]
  · intro r hr
    simp [IBaseRepository.findOneOrFail, storeFindOneOrFail, hr]
  · intro q
    cases q <;> cases hr : s.lookup id <;>
      simp [IBaseRepository.findOneOrFail, storeFindOneOrFail, hr, Except.map]

/-- C7 witness: on the demo store, the present id "a" is read and returned
projected, and the absent id is reported as `notFound`. -/
theorem findOneOrFail_spec_witness :
    demoStore.lookup "a" = some demoRow ∧
    ((IBaseRepository.findOneOrFail demoStore "a" (some demoSpec)).ret =
      .ok (parseQueryRow demoSpec demoRow)) ∧
    ((IBaseRepository.findOneOrFail demoStore "a" none).ret =
        .error .notFound ↔ demoStore.lookup "a" = none) := by
  have h := findOneOrFail_spec demoStore "a" demoSpec
  exact ⟨rfl, h.2.2.1 demoRow rfl, h.2.2.2.2 none⟩

/-- C8: `findOne(id[, spec])` returns the store's optional row — projected
through the spec when one is given — and in particular returns `none`, never
a failure, when no row matches the id, in both variants. -/
theorem findOne_spec (s : Store) (id : String) (spec : QSpec) :
    (IBaseRepository.findOne s id none).ret = storeFindOne s id ∧
    (IBaseRepository.findOne s id (some spec)).ret =
      (storeFindOne s id).map (parseQueryRow spec) ∧
    (s.lookup id = none →
      (IBaseRepository.findOne s id none).ret = none ∧
      (IBaseRepository.findOne s id (some spec)).ret = none) := by
  refine ⟨rfl, rfl, ?_⟩
  intro h
  constructor
  · simpa [IBaseRepository.findOne, storeFindOne] using h
  · simp [IBaseRepository.findOne, storeFindOne, h]

/-- C8 witness: on the demo store, `findOne` of the absent id "zzz" returns
`none` in both the unprojected and the projected variant. -/
theorem findOne_spec_witness :
    demoStore.lookup "zzz" = none ∧
    (IBaseRepository.findOne demoStore "zzz" none).ret = none ∧
    (IBaseRepository.findOne demoStore "zzz" (some demoSpec)).ret = none := by
  have h := (findOne_spec demoStore "zzz" demoSpec).2.2 rfl
  exact ⟨rfl, h.1, h.2⟩

/-- C2: `update(id, entity[, spec])` saves the entity's fields to the row
identified by the id argument with upsert-by-id semantics — the row now
carries every field the record names (given distinct field names) while every
field the record does not name retains its prior value — fires the
invalidation trigger with exactly the single id, and returns the result of
re-reading that id via `findOneOrFail` on the post-write store, projected
through the spec when one is given and unprojected otherwise. -/
theorem update_spec (s : Store) (id : String) (entity : SaveRec)
    (q : Option QSpec) :
    (IBaseRepository.update s id entity q).store =
      storeSave s { entity with id := id } ∧
    (∀ old, s.lookup id = some old →
      (IBaseRepository.update s id entity q).store.lookup id =
        some (mergeRow old (rowOfRec { entity with id := id })) ∧
      (∀ k, k ∉ (rowOfRec { entity with id := id }).map Prod.fst →
        (mergeRow old (rowOfRec { entity with id := id })).lookup k =
          old.lookup k) ∧
      (((rowOfRec { entity with id := id }).map Prod.fst).Nodup →
        ∀ k v, (rowOfRec { entity with id := id }).lookup k = some v →
          (mergeRow old (rowOfRec { entity with id := id })).lookup k = some v)) ∧
    (IBaseRepository.update s id entity q).events.filter Event.isTrigger =
      [.trigger [id]] ∧
    (∀ spec, q = some spec →
      (IBaseRepository.update s id entity q).ret =
        (storeFindOneOrFail (storeSave s { entity with id := id }) id).map
          (parseQueryRow spec)) ∧
    (q = none →
      (IBaseRepository.update s id entity q).ret =
        storeFindOneOrFail (storeSave s { entity with id := id }) id) := by
  refine ⟨?_, ?_, ?_, ?_, ?_⟩
  · cases q <;> rfl
  · intro old hold
    have hid : ({ entity with id := id } : SaveRec).id = id := rfl
    have hsave := lookup_storeSave_self s { entity with id := id }
    rw [hid, hold] at hsave
    refine ⟨?_, ?_, ?_⟩
    · have hst : (IBaseRepository.update s id entity q).store =
          storeSave s { entity with id := id } := by cases q <;> rfl
      rw [hst]
      exact hsave
    · intro k hk
      exact lookup_mergeRow_notMem _ _ _ hk
    · intro hnd k v hkv
      exact lookup_mergeRow_mem _ _ _ _ hnd hkv
  · cases q <;> rfl
  · intro spec hq
    subst hq
    rfl
  · intro hq
    subst hq
    rfl

/-- C2 witness: updating the existing row "a" of the demo store with a patch
record carrying a different id merges the patch into row "a", retains the
unnamed field "secret", and returns the unprojected re-read of "a". -/
theorem update_spec_witness :
    demoStore.lookup "a" = some demoRow ∧
    (IBaseRepository.update demoStore "a" demoPatch none).store.lookup "a" =
      some (mergeRow demoRow (rowOfRec { demoPatch with id := "a" })) ∧
    (mergeRow demoRow (rowOfRec { demoPatch with id := "a" })).lookup "secret" =
      demoRow.lookup "secret" ∧
    (mergeRow demoRow (rowOfRec { demoPatch with id := "a" })).lookup "name" =
      some (.scalar "Ada2") ∧
    (IBaseRepository.update demoStore "a" demoPatch none).ret =
      storeFindOneOrFail (storeSave demoStore { demoPatch with id := "a" }) "a" := by
  have h := update_spec demoStore "a" demoPatch none
  have hold := h.2.1 demoRow rfl
  refine ⟨rfl, hold.1, ?_, ?_, h.2.2.2.2 rfl⟩
  · exact hold.2.1 "secret" (by decide)
  · exact hold.2.2 (by decide) "name" (.scalar "Ada2") (by rfl)

/-- C3: `query(spec[, options])` runs in paginated mode — one store paginate
call with the spec's page number and page size, returning that page's items
with counts — exactly when the spec carries the reserved pagination options
(a page number and a page size) at its top level; otherwise it issues one
full fetch with the extracted relations and the caller's options; in both
modes each returned item is projected through the spec. -/
theorem query_paginates_iff (s : Store) (q : QSpec) (options : Opts) :
    (∀ po, q.pagin = some po →
      (IBaseRepository.query s q options).ret =
        .page { items := (((storeFind s).drop ((po.page - 1) * po.limit)).take
                    po.limit).map (parseQueryRow q)
                totalItems := (storeFind s).length
                page := po.page
                limit := po.limit } ∧
      (IBaseRepository.query s q options).events =
        [.readPage po.page po.limit options (createTypeormRelationsArray q)]) ∧
    (q.pagin = none →
      (IBaseRepository.query s q options).ret =
        .list ((storeFind s).map (parseQueryRow q)) ∧
      (IBaseRepository.query s q options).events =
        [.readAll options (createTypeormRelationsArray q)]) := by
  obtain ⟨fs, p⟩ := q
  constructor
  · intro po hpo
    cases p with
    | none => exact absurd hpo (by simp [QSpec.pagin])
    | some po' =>
      have : po' = po := by simpa [QSpec.pagin] using hpo
      subst this
      exact ⟨rfl, rfl⟩
  · intro hp
    cases p with
    | none => exact ⟨rfl, rfl⟩
    | some po' => exact absurd hp (by simp [QSpec.pagin])

/-- C3 witness: the demo paginated spec (page 2, size 1) makes `query` fetch
exactly the second one-row page of the demo store with its total count, while
the demo plain spec makes it fetch the full projected set. -/
theorem query_paginates_iff_witness :
    demoPagSpec.pagin = some { page := 2, limit := 1 } ∧
    (IBaseRepository.query demoStore demoPagSpec []).ret =
      .page { items := (((storeFind demoStore).drop 1).take 1).map
                  (parseQueryRow demoPagSpec)
              totalItems := (storeFind demoStore).length
              page := 2
              limit := 1 } ∧
    demoSpec.pagin = none ∧
    (IBaseRepository.query demoStore demoSpec []).ret =
      .list ((storeFind demoStore).map (parseQueryRow demoSpec)) := by
  have h1 := (query_paginates_iff demoStore demoPagSpec []).1
      { page := 2, limit := 1 } rfl
  have h2 := (query_paginates_iff demoStore demoSpec []).2 rfl
  exact ⟨rfl, h1.1, rfl, h2.1⟩

/-- C5: `upsertMany` on a non-empty entity list issues one batch save of all
the entities as its first store call, fires the invalidation trigger exactly
once with the full list of their ids, and returns the re-read of exactly
those ids via `findMany` on the post-write store — projected when a spec is
given, unprojected otherwise. -/
theorem upsertMany_spec (s : Store) (e : SaveRec) (es : List SaveRec)
    (q : Option QSpec) :
    (IBaseRepository.upsertMany s (e :: es) q).store =
      storeSaveMany s (e :: es) ∧
    (IBaseRepository.upsertMany s (e :: es) q).events.head? =
      some (.write (e :: es)) ∧
    (IBaseRepository.upsertMany s (e :: es) q).events.filter Event.isTrigger =
      [.trigger ((e :: es).map SaveRec.id)] ∧
    (IBaseRepository.upsertMany s (e :: es) q).ret =
      (IBaseRepository.findMany (storeSaveMany s (e :: es))
        ((e :: es).map SaveRec.id) q).ret ∧
    (∀ spec, q = some spec →
      (IBaseRepository.upsertMany s (e :: es) q).ret =
        (storeFindByIds (storeSaveMany s (e :: es))
          ((e :: es).map SaveRec.id)).map (parseQueryRow spec)) ∧
    (q = none →
      (IBaseRepository.upsertMany s (e :: es) q).ret =
        storeFindByIds (storeSaveMany s (e :: es)) ((e :: es).map SaveRec.id)) := by
  refine ⟨?_, ?_, ?_, ?_, ?_, ?_⟩
  · cases q <;> rfl
  · cases q <;> rfl
  · cases q <;> rfl
  · cases q <;> rfl
  · intro spec hq
    subst hq
    rfl
  · intro hq
    subst hq
    rfl

/-- C5 witness: upserting two records into the demo store batch-writes both,
triggers once with both ids, and returns the unprojected re-read of exactly
those two ids. -/
theorem upsertMany_spec_witness :
    (IBaseRepository.upsertMany demoStore
        [demoPatch, { id := "b", fields := [] }] none).events.filter
      Event.isTrigger = [.trigger ["zzz", "b"]] ∧
    (IBaseRepository.upsertMany demoStore
        [demoPatch, { id := "b", fields := [] }] none).ret =
      storeFindByIds
        (storeSaveMany demoStore [demoPatch, { id := "b", fields := [] }])
        ["zzz", "b"] := by
  have h := upsertMany_spec demoStore demoPatch
      [{ id := "b", fields := [] }] none
  exact ⟨h.2.2.1, h.2.2.2.2.2 rfl⟩

/-- The trace shape C1 asserts of every mutator: some store writes, then
exactly one invalidation trigger carrying `ids`, then only store reads (the
re-read producing the returned value), so the trigger fires after the store
write completes and before the operation returns. -/
def triggerBetween (evs : List Event) (ids : List String) : Prop :=
  ∃ ws rs, evs = ws ++ [Event.trigger ids] ++ rs ∧
    ws.all Event.isStoreWrite = true ∧
    rs.all Event.isStoreRead = true

/-- C1: every mutating operation — `update`, `upsert`, `upsertMany` on a
non-empty list, `delete`, `deleteMany` on a non-empty list — fires the
invalidation trigger after its store write and before returning: its trace is
store writes, then the trigger with the affected ids, then only store reads;
and the value each write-then-read mutator returns is exactly the re-read of
the post-write store, so it is never older than the state subscribers are
notified about. -/
theorem mutators_trigger_after_write_before_return (s : Store) (id : String)
    (entity e : SaveRec) (es : List SaveRec) (i : String) (is : List String)
    (q : Option QSpec) :
    triggerBetween (IBaseRepository.update s id entity q).events [id] ∧
    triggerBetween (IBaseRepository.upsert s e q).events [e.id] ∧
    triggerBetween (IBaseRepository.upsertMany s (e :: es) q).events
      ((e :: es).map SaveRec.id) ∧
    triggerBetween (IBaseRepository.delete s id).events [id] ∧
    triggerBetween (IBaseRepository.deleteMany s (i :: is)).events (i :: is) ∧
    (IBaseRepository.update s id entity q).ret =
      (IBaseRepository.findOneOrFail (storeSave s { entity with id := id })
        id q).ret ∧
    (IBaseRepository.upsert s e q).ret =
      (IBaseRepository.findOneOrFail (storeSave s e) e.id q).ret ∧
    (IBaseRepository.upsertMany s (e :: es) q).ret =
      (IBaseRepository.findMany (storeSaveMany s (e :: es))
        ((e :: es).map SaveRec.id) q).ret := by
  refine ⟨?_, ?_, ?_, ?_, ?_, rfl, rfl, ?_⟩
  · cases q with
    | some spec =>
        exact ⟨[.write [{ entity with id := id }]],
          [.readOne id (createTypeormRelationsArray spec)], rfl, rfl, rfl⟩
    | none =>
        exact ⟨[.write [{ entity with id := id }]], [.readOne id []],
          rfl, rfl, rfl⟩
  · cases q with
    | some spec =>
        exact ⟨[.write [e]],
          [.readOne e.id (createTypeormRelationsArray spec)], rfl, rfl, rfl⟩
    | none => exact ⟨[.write [e]], [.readOne e.id []], rfl, rfl, rfl⟩
  · cases q with
    | some spec =>
        exact ⟨[.write (e :: es)],
          [.readMany ((e :: es).map SaveRec.id)
            (createTypeormRelationsArray spec)], rfl, rfl, rfl⟩
    | none =>
        exact ⟨[.write (e :: es)],
          [.readMany ((e :: es).map SaveRec.id) []], rfl, rfl, rfl⟩
  · exact ⟨[.remove [id]], [], rfl, rfl, rfl⟩
  · exact ⟨[.remove (i :: is)], [], rfl, rfl, rfl⟩
  · cases q <;> rfl
